import Mathlib

/-!
Verification of the template-registry model of this repository.

The repository's own code (`src/client.py`) is integration glue over an
external prompt-management SDK: the registry operations `create_prompt`,
`get_prompt`, `update_prompt` and template `compile` are called but not
implemented under `src/`.  Following the specification (§3, §4.1, §7), those
operations are modelled here from the spec's words.  The helper
`prompt_exists` (src/client.py lines 34-39) is repository code and is
embedded faithfully, including its Python-falsiness label default
(`label if label else "production"`).
-/

set_option autoImplicit false

namespace Langfuse

/-- A chat message: a role and a content string. -/
structure Message where
  role : String
  content : String
deriving DecidableEq, Repr

/-- A template body: a single text string with placeholders, or an ordered
sequence of chat messages (spec §3). -/
inductive Body where
  | text : String → Body
  | chat : List Message → Body
deriving DecidableEq, Repr

/-- Error kinds of the registry (spec §7). -/
inductive RegError where
  | validationError
  | notFoundError
deriving DecidableEq, Repr

/-- One stored template version: key `(name, version)`, with its type tag,
immutable body and opaque config (spec §3). -/
structure Entry where
  name : String
  version : Nat
  ptype : String
  body : Body
  config : List (String × String)
deriving DecidableEq, Repr

/-- A label pointer: `(name, label) → version` (spec §3, §5). -/
structure LabelPtr where
  name : String
  label : String
  version : Nat
deriving DecidableEq, Repr

/-- Modelled from the spec: the Template Registry state — a store keyed by
`(name, version)` plus a secondary `(name, label) → version` index (spec §5).
The remote prompt store backing `create_prompt` / `get_prompt` /
`update_prompt` is not part of `src/`. -/
structure Registry where
  entries : List Entry
  labels : List LabelPtr
deriving DecidableEq, Repr

/-- The empty registry: no versions, no label pointers. -/
def Registry.empty : Registry := ⟨[], []⟩

/-- All version numbers stored under `name`. -/
def Registry.versionsOf (r : Registry) (name : String) : List Nat :=
  (r.entries.filter (fun e => e.name == name)).map (fun e => e.version)

/-- Modelled from the spec: "allocates the next version number for `name`
(1 if none exist)" — one more than the largest existing version (spec §4.1). -/
def Registry.nextVersion (r : Registry) (name : String) : Nat :=
  (r.versionsOf name).foldl max 0 + 1

/-- Look up the entry stored under `(name, v)`, if any. -/
def Registry.findVersion (r : Registry) (name : String) (v : Nat) : Option Entry :=
  r.entries.find? (fun e => e.name == name && e.version == v)

/-- Resolve a label to the version it currently points to, if any. -/
def Registry.labelVersion (r : Registry) (name label : String) : Option Nat :=
  (r.labels.find? (fun p => p.name == name && p.label == label)).map (fun p => p.version)

/-- Modelled from the spec: attach `label` to version `v` of `name`,
"detaching [it] from any version that previously held [it]" (spec §4.1):
every old pointer for `(name, label)` is removed and a single fresh pointer
is installed. -/
def Registry.setLabel (r : Registry) (name label : String) (v : Nat) : Registry :=
  ⟨r.entries,
   ⟨name, label, v⟩ :: r.labels.filter (fun p => !(p.name == name && p.label == label))⟩

/-- Modelled from the spec: `create(name, type, body, labels, config) → version`
(spec §4.1) — allocates the next version for `name`, stores body/config
immutably under it, attaches the given labels (moving each from any previous
holder), and fails with `ValidationError` if `type` is not `text`/`chat`.
Returned pair: the post-state and the result; on failure the state is the
input state unchanged (spec §7: no partial-success state). -/
def Registry.create (r : Registry) (name ptype : String) (body : Body)
    (labels : List String) (config : List (String × String)) :
    Registry × Except RegError Nat :=
  if ptype == "text" || ptype == "chat" then
    let v := r.nextVersion name
    let r1 : Registry := ⟨⟨name, v, ptype, body, config⟩ :: r.entries, r.labels⟩
    (labels.foldl (fun acc l => acc.setLabel name l v) r1, Except.ok v)
  else
    (r, Except.error RegError.validationError)

/-- Modelled from the spec: `get(name, label=None, version=None)` (spec §4.1) —
if `version` is given, return that exact version or fail with `NotFoundError`;
else resolve `label` (default `production`) to its current version and return
it, failing with `NotFoundError` if no version carries that label. -/
def Registry.get (r : Registry) (name : String) (label : Option String)
    (version : Option Nat) : Except RegError Entry :=
  match version with
  | some v =>
    match r.findVersion name v with
    | some e => Except.ok e
    | none => Except.error RegError.notFoundError
  | none =>
    match r.labelVersion name (label.getD "production") with
    | some v =>
      match r.findVersion name v with
      | some e => Except.ok e
      | none => Except.error RegError.notFoundError
    | none => Except.error RegError.notFoundError

/-- Modelled from the spec: `updateLabels(name, version, newLabels)`
(spec §4.1) — moves each label in `newLabels` from its current holder (if
any) to `version`; fails with `NotFoundError` if `(name, version)` does not
exist, leaving the state unchanged. -/
def Registry.updatePrompt (r : Registry) (name : String) (v : Nat)
    (newLabels : List String) : Registry × Except RegError Unit :=
  if (r.findVersion name v).isSome then
    (newLabels.foldl (fun acc l => acc.setLabel name l v) r, Except.ok ())
  else
    (r, Except.error RegError.notFoundError)

/-- `prompt_exists` from src/client.py lines 34-39: probes
`get_prompt(name, label=label if label else "production")` and reports
whether it succeeded.  A Python-falsy label (`None` or `""`) is replaced by
`"production"` before the lookup; the probe never throws. -/
def prompt_exists (r : Registry) (name : String) (label : Option String) : Bool :=
  (r.get name
    (some (match label with
      | none => "production"
      | some s => if s == "" then "production" else s))
    none).isOk

/-- The character `{` (written by code point to keep brace text out of
string literals elsewhere). -/
def obrace : Char := Char.ofNat 123

/-- The character `}`. -/
def cbrace : Char := Char.ofNat 125

/-- Look up a placeholder key among the (already stringified) variables;
an absent key is rendered back as the untouched placeholder (spec §4.1:
"leaving unmatched placeholders untouched", permissive mode — the library
default). -/
def substVar (vars : List (String × String)) (key : String) : String :=
  match vars.find? (fun p => p.1 == key) with
  | some p => p.2
  | none => "\x7b\x7b" ++ key ++ "\x7d\x7d"

/-- Scan for the first closing `}}`; on success return the characters before
it and the characters after it. -/
def splitAtClose : List Char → Option (List Char × List Char)
  | [] => none
  | c :: rest =>
    if c == cbrace && rest.head? == some cbrace then some ([], rest.tail)
    else (splitAtClose rest).map (fun p => (c :: p.1, p.2))

/-- Fuelled scanner: at each `{{`, take the key up to the next `}}` and emit
its substitution; copy every other character.  One unit of fuel is spent per
step and each step consumes at least one character, so fuel equal to the
input length always suffices. -/
def compileCharsAux (vars : List (String × String)) : Nat → List Char → List Char
  | 0, l => l
  | _ + 1, [] => []
  | fuel + 1, c :: rest =>
    if c == obrace && rest.head? == some obrace then
      match splitAtClose rest.tail with
      | some (key, after) =>
        (substVar vars (String.mk key)).data ++ compileCharsAux vars fuel after
      | none => c :: rest
    else
      c :: compileCharsAux vars fuel rest

/-- Run the scanner with sufficient fuel. -/
def compileChars (vars : List (String × String)) (l : List Char) : List Char :=
  compileCharsAux vars l.length l

/-- Modelled from the spec: `compile` for `text` templates — "substitutes
every `\x7b\x7bkey\x7d\x7d` occurrence with `variables[key]` (stringified),
leaving unmatched placeholders untouched" (spec §4.1). -/
def compileText (vars : List (String × String)) (body : String) : String :=
  String.mk (compileChars vars body.data)

/-- Modelled from the spec: `compile` for `chat` templates — "applies the
same substitution independently to each message's `content`, preserving
message order and roles" (spec §4.1). -/
def compileChat (vars : List (String × String)) (msgs : List Message) : List Message :=
  msgs.map (fun m => ⟨m.role, compileText vars m.content⟩)

/-- Compile either kind of body. -/
def compileBody (vars : List (String × String)) : Body → Body
  | Body.text s => Body.text (compileText vars s)
  | Body.chat ms => Body.chat (compileChat vars ms)

/-- Bool test: the character list contains no `\x7b\x7b` pair, i.e. the body
has no placeholder opener. -/
def noOpenPair : List Char → Bool
  | [] => true
  | c :: rest => !(c == obrace && rest.head? == some obrace) && noOpenPair rest

/-- The arguments of one `create` call (everything except the name). -/
structure CreateArgs where
  ptype : String
  body : Body
  labels : List String
  config : List (String × String)
deriving DecidableEq, Repr

/-- Run a sequence of `create` calls for one `name`, collecting each call's
result. -/
def createSeq (r : Registry) (name : String) :
    List CreateArgs → Registry × List (Except RegError Nat)
  | [] => (r, [])
  | a :: rest =>
    let step := r.create name a.ptype a.body a.labels a.config
    let next := createSeq step.1 name rest
    (next.1, step.2 :: next.2)

/-- Run a sequence of `updateLabels` calls, each given as
`(name, version, newLabels)`. -/
def applyUpdates : Registry → List (String × Nat × List String) → Registry
  | r, [] => r
  | r, u :: us => applyUpdates (r.updatePrompt u.1 u.2.1 u.2.2).1 us

/-- All label pointers of `r` for the pair `(name, label)`. -/
def filterPair (r : Registry) (name lb : String) : List LabelPtr :=
  r.labels.filter (fun p => p.name == name && p.label == lb)

/-- Spec §3: "a label points to exactly one version per name at any
instant" — no `(name, label)` pair has two pointers. -/
def Registry.labelsUnique (r : Registry) : Prop :=
  ∀ nm lb, (filterPair r nm lb).length ≤ 1

theorem string_ext {s t : String} (h : s.data = t.data) : s = t := by
  cases s
  cases t
  exact congrArg String.mk h

theorem setLabel_entries (r : Registry) (n l : String) (v : Nat) :
    (r.setLabel n l v).entries = r.entries := rfl

theorem foldl_setLabel_entries (n : String) (v : Nat) :
    ∀ (ls : List String) (r : Registry),
      (ls.foldl (fun acc l => acc.setLabel n l v) r).entries = r.entries := by
  intro ls
  induction ls with
  | nil => intro r; rfl
  | cons x ls ih => intro r; exact ih (r.setLabel n x v)

theorem updatePrompt_entries (r : Registry) (n : String) (v : Nat) (ls : List String) :
    (r.updatePrompt n v ls).1.entries = r.entries := by
  unfold Registry.updatePrompt
  split
  · exact foldl_setLabel_entries n v ls r
  · rfl

theorem applyUpdates_entries :
    ∀ (us : List (String × Nat × List String)) (r : Registry),
      (applyUpdates r us).entries = r.entries := by
  intro us
  induction us with
  | nil => intro r; rfl
  | cons u us ih =>
    intro r
    rw [applyUpdates, ih, updatePrompt_entries]

theorem foldl_max_comm (l : List Nat) : ∀ (a : Nat), l.foldl max a = max a (l.foldl max 0) := by
  induction l with
  | nil => intro a; simp
  | cons b l ih =>
    intro a
    simp only [List.foldl]
    rw [ih (max a b), ih (max 0 b), Nat.zero_max, Nat.max_assoc]

theorem le_foldl_max (l : List Nat) : ∀ a ∈ l, a ≤ l.foldl max 0 := by
  induction l with
  | nil => intro a ha; cases ha
  | cons b l ih =>
    intro a ha
    simp only [List.foldl, Nat.zero_max]
    rw [foldl_max_comm]
    rcases List.mem_cons.mp ha with h | h
    · exact h ▸ Nat.le_max_left _ _
    · exact le_trans (ih a h) (Nat.le_max_right _ _)

theorem findVersion_eq (r : Registry) (n : String) (v : Nat) (e : Entry)
    (h : r.findVersion n v = some e) : e.name = n ∧ e.version = v ∧ e ∈ r.entries := by
  unfold Registry.findVersion at h
  have hp := List.find?_some h
  have hm := List.mem_of_find?_eq_some h
  simp only [Bool.and_eq_true, beq_iff_eq] at hp
  exact ⟨hp.1, hp.2, hm⟩

theorem mem_versionsOf_of_findVersion (r : Registry) (n : String) (v : Nat) (e : Entry)
    (h : r.findVersion n v = some e) : v ∈ r.versionsOf n := by
  obtain ⟨hn, hv, hm⟩ := findVersion_eq r n v e h
  unfold Registry.versionsOf
  refine List.mem_map.mpr ⟨e, List.mem_filter.mpr ⟨hm, ?_⟩, hv⟩
  simp [hn]

theorem findVersion_lt_nextVersion (r : Registry) (n : String) (v : Nat) (e : Entry)
    (h : r.findVersion n v = some e) : v < r.nextVersion n := by
  have hle := le_foldl_max (r.versionsOf n) v (mem_versionsOf_of_findVersion r n v e h)
  unfold Registry.nextVersion
  omega

theorem findVersion_eq_none_of_no_versions (r : Registry) (n : String) (v : Nat)
    (h : r.versionsOf n = []) : r.findVersion n v = none := by
  cases hfv : r.findVersion n v with
  | none => rfl
  | some e =>
    have hmem := mem_versionsOf_of_findVersion r n v e hfv
    rw [h] at hmem
    cases hmem

theorem create_valid (r : Registry) (n pt : String) (b : Body) (ls : List String)
    (cfg : List (String × String)) (h : (pt == "text" || pt == "chat") = true) :
    (r.create n pt b ls cfg).2 = Except.ok (r.nextVersion n) ∧
    (r.create n pt b ls cfg).1.entries
      = ⟨n, r.nextVersion n, pt, b, cfg⟩ :: r.entries := by
  unfold Registry.create
  rw [if_pos h]
  exact ⟨rfl, foldl_setLabel_entries n (r.nextVersion n) ls _⟩

theorem create_invalid (r : Registry) (n pt : String) (b : Body) (ls : List String)
    (cfg : List (String × String)) (h : (pt == "text" || pt == "chat") = false) :
    r.create n pt b ls cfg = (r, Except.error RegError.validationError) := by
  unfold Registry.create
  rw [if_neg (by simp [h])]

theorem versionsOf_create (r : Registry) (n pt : String) (b : Body) (ls : List String)
    (cfg : List (String × String)) (h : (pt == "text" || pt == "chat") = true) :
    (r.create n pt b ls cfg).1.versionsOf n = r.nextVersion n :: r.versionsOf n := by
  unfold Registry.versionsOf
  rw [(create_valid r n pt b ls cfg h).2]
  simp [List.filter_cons]

theorem nextVersion_create (r : Registry) (n pt : String) (b : Body) (ls : List String)
    (cfg : List (String × String)) (h : (pt == "text" || pt == "chat") = true) :
    (r.create n pt b ls cfg).1.nextVersion n = r.nextVersion n + 1 := by
  have hcons : (r.nextVersion n :: r.versionsOf n).foldl max 0 = r.nextVersion n := by
    simp only [List.foldl, Nat.zero_max]
    rw [foldl_max_comm]
    exact Nat.max_eq_left (by unfold Registry.nextVersion; exact Nat.le_succ _)
  unfold Registry.nextVersion
  rw [versionsOf_create r n pt b ls cfg h, hcons]
  rfl

theorem filterPair_setLabel_self (r : Registry) (n l : String) (v : Nat) :
    filterPair (r.setLabel n l v) n l = [⟨n, l, v⟩] := by
  unfold filterPair Registry.setLabel
  simp only [List.filter_cons, beq_self_eq_true, Bool.and_self, if_true]
  rw [List.filter_filter]
  simp [Bool.and_not_self]

theorem filterPair_setLabel_other (r : Registry) (n₀ l₀ n l : String) (v : Nat)
    (h : ¬(n = n₀ ∧ l = l₀)) :
    filterPair (r.setLabel n₀ l₀ v) n l = filterPair r n l := by
  unfold filterPair Registry.setLabel
  have hnew : ((n₀ : String) == n && (l₀ : String) == l) = false := by
    by_cases hn : n₀ = n
    · subst hn
      have hl : l ≠ l₀ := fun he => h ⟨rfl, he⟩
      simp [Ne.symm hl]
    · simp [hn]
  simp only [List.filter_cons, hnew, if_false]
  rw [List.filter_filter]
  apply List.filter_congr
  intro p _
  by_cases hp : (p.name == n && p.label == l) = true
  · simp only [Bool.and_eq_true, beq_iff_eq] at hp
    have hng : ((n : String) == n₀ && (l : String) == l₀) = false := by
      by_cases hn : n = n₀
      · have hl : l ≠ l₀ := fun he => h ⟨hn, he⟩
        simp [hl]
      · simp [hn]
    simp only [hp.1, hp.2, hng, beq_self_eq_true, Bool.and_self, Bool.not_false,
      Bool.and_true]
  · simp only [Bool.not_eq_true] at hp
    simp [hp]

theorem labelVersion_setLabel_self (r : Registry) (n l : String) (v : Nat) :
    (r.setLabel n l v).labelVersion n l = some v := by
  unfold Registry.labelVersion Registry.setLabel
  simp [List.find?_cons]

theorem filterPair_foldl_other (n : String) (v : Nat) :
    ∀ (ls : List String) (r : Registry) (nm lb : String),
      (∀ x ∈ ls, ¬(nm = n ∧ lb = x)) →
      filterPair (ls.foldl (fun acc x => acc.setLabel n x v) r) nm lb = filterPair r nm lb := by
  intro ls
  induction ls with
  | nil => intro r nm lb _; rfl
  | cons x ls ih =>
    intro r nm lb h
    simp only [List.foldl]
    rw [ih (r.setLabel n x v) nm lb (fun y hy => h y (List.mem_cons_of_mem x hy)),
      filterPair_setLabel_other r n x nm lb v (h x (List.mem_cons_self x ls))]

theorem filterPair_foldl_mem (n : String) (v : Nat) :
    ∀ (ls : List String) (r : Registry) (lb : String), lb ∈ ls →
      filterPair (ls.foldl (fun acc x => acc.setLabel n x v) r) n lb = [⟨n, lb, v⟩] := by
  intro ls
  induction ls with
  | nil => intro r lb h; cases h
  | cons x ls ih =>
    intro r lb h
    simp only [List.foldl]
    by_cases hmem : lb ∈ ls
    · exact ih (r.setLabel n x v) lb hmem
    · have hx : lb = x := by
        rcases List.mem_cons.mp h with h' | h'
        · exact h'
        · exact absurd h' hmem
      subst hx
      rw [filterPair_foldl_other n v ls (r.setLabel n lb v) n lb
        (fun y hy => fun hc => hmem (hc.2 ▸ hy)), filterPair_setLabel_self]

theorem findVersion_entries_eq (r r' : Registry) (h : r'.entries = r.entries)
    (n : String) (v : Nat) : r'.findVersion n v = r.findVersion n v := by
  unfold Registry.findVersion
  rw [h]

theorem get_version_eq_findVersion (r : Registry) (name : String) (lbl : Option String)
    (v : Nat) :
    r.get name lbl (some v)
      = match r.findVersion name v with
        | some e => Except.ok e
        | none => Except.error RegError.notFoundError := rfl

theorem get_version_entries_eq (r r' : Registry) (h : r'.entries = r.entries)
    (name : String) (lbl : Option String) (v : Nat) :
    r'.get name lbl (some v) = r.get name lbl (some v) := by
  rw [get_version_eq_findVersion, get_version_eq_findVersion,
    findVersion_entries_eq r r' h name v]

theorem splitAtClose_eq_append :
    ∀ (l a b : List Char), splitAtClose l = some (a, b) → l = a ++ cbrace :: cbrace :: b := by
  intro l
  induction l with
  | nil => intro a b h; simp [splitAtClose] at h
  | cons c rest ih =>
    intro a b h
    unfold splitAtClose at h
    split at h
    case isTrue hc =>
      simp only [Option.some.injEq, Prod.mk.injEq] at h
      obtain ⟨ha, hb⟩ := h
      simp only [Bool.and_eq_true, beq_iff_eq] at hc
      obtain ⟨hc1, hc2⟩ := hc
      cases rest with
      | nil => simp at hc2
      | cons d rest' =>
        simp only [List.head?, Option.some.injEq] at hc2
        subst hc1
        subst hc2
        subst ha
        subst hb
        rfl
    case isFalse hc =>
      rw [Option.map_eq_some'] at h
      obtain ⟨p, hp, hpe⟩ := h
      have hrest := ih p.1 p.2 hp
      simp only [Prod.mk.injEq] at hpe
      obtain ⟨ha, hb⟩ := hpe
      subst ha
      subst hb
      rw [List.cons_append, ← hrest]

theorem splitAtClose_complete :
    ∀ (key after : List Char), cbrace ∉ key →
      splitAtClose (key ++ cbrace :: cbrace :: after) = some (key, after) := by
  intro key
  induction key with
  | nil =>
    intro after _
    unfold splitAtClose
    simp
  | cons k key ih =>
    intro after h
    have hk : k ≠ cbrace := fun he => h (he ▸ List.mem_cons_self k key)
    rw [List.cons_append]
    unfold splitAtClose
    rw [if_neg (by simp [hk]), ih after (fun hm => h (List.mem_cons_of_mem k hm))]
    rfl

theorem compileCharsAux_succ_cons (vars : List (String × String)) (f : Nat) (c : Char)
    (rest : List Char) :
    compileCharsAux vars (f + 1) (c :: rest)
      = if c == obrace && rest.head? == some obrace then
          match splitAtClose rest.tail with
          | some (key, after) =>
            (substVar vars (String.mk key)).data ++ compileCharsAux vars f after
          | none => c :: rest
        else c :: compileCharsAux vars f rest := rfl

theorem compileCharsAux_fuel (vars : List (String × String)) :
    ∀ (f₁ f₂ : Nat) (l : List Char), l.length ≤ f₁ → l.length ≤ f₂ →
      compileCharsAux vars f₁ l = compileCharsAux vars f₂ l := by
  intro f₁
  induction f₁ with
  | zero =>
    intro f₂ l h1 _
    have hl : l = [] := List.eq_nil_of_length_eq_zero (Nat.le_zero.mp h1)
    subst hl
    cases f₂ <;> rfl
  | succ f ih =>
    intro f₂ l h1 h2
    cases l with
    | nil => cases f₂ <;> rfl
    | cons c rest =>
      cases f₂ with
      | zero => simp at h2
      | succ g =>
        simp only [List.length_cons] at h1 h2
        rw [compileCharsAux_succ_cons, compileCharsAux_succ_cons]
        by_cases hc : (c == obrace && rest.head? == some obrace) = true
        · rw [if_pos hc, if_pos hc]
          cases hsp : splitAtClose rest.tail with
          | none => rfl
          | some p =>
            obtain ⟨key, after⟩ := p
            have happ := splitAtClose_eq_append rest.tail key after hsp
            have htail : rest.tail.length ≤ rest.length := by
              cases rest <;> simp
            have hlen : after.length + 2 ≤ rest.tail.length := by
              rw [happ]
              simp [List.length_append]
            show (substVar vars (String.mk key)).data ++ compileCharsAux vars f after
              = (substVar vars (String.mk key)).data ++ compileCharsAux vars g after
            rw [ih g after (by omega) (by omega)]
        · rw [if_neg hc, if_neg hc]
          rw [ih g rest (by omega) (by omega)]

theorem compileChars_cons_of_neg (vars : List (String × String)) (c : Char)
    (rest : List Char) (h : (c == obrace && rest.head? == some obrace) = false) :
    compileChars vars (c :: rest) = c :: compileChars vars rest := by
  unfold compileChars
  rw [show (c :: rest).length = rest.length + 1 from rfl, compileCharsAux_succ_cons,
    if_neg (by simp [h])]

theorem compileChars_placeholder (vars : List (String × String)) (key after : List Char)
    (h : cbrace ∉ key) :
    compileChars vars (obrace :: obrace :: (key ++ cbrace :: cbrace :: after))
      = (substVar vars (String.mk key)).data ++ compileChars vars after := by
  unfold compileChars
  rw [show (obrace :: obrace :: (key ++ cbrace :: cbrace :: after)).length
      = (obrace :: (key ++ cbrace :: cbrace :: after)).length + 1 from rfl,
    compileCharsAux_succ_cons, if_pos (by simp)]
  show (match splitAtClose (key ++ cbrace :: cbrace :: after) with
    | some (k, a) =>
      (substVar vars (String.mk k)).data ++
        compileCharsAux vars (obrace :: (key ++ cbrace :: cbrace :: after)).length a
    | none => obrace :: obrace :: (key ++ cbrace :: cbrace :: after))
    = (substVar vars (String.mk key)).data ++ compileCharsAux vars after.length after
  rw [splitAtClose_complete key after h]
  show (substVar vars (String.mk key)).data ++
      compileCharsAux vars (obrace :: (key ++ cbrace :: cbrace :: after)).length after
    = (substVar vars (String.mk key)).data ++ compileCharsAux vars after.length after
  rw [compileCharsAux_fuel vars (obrace :: (key ++ cbrace :: cbrace :: after)).length
    after.length after (by simp [List.length_append]; omega) (Nat.le_refl _)]

theorem compileChars_id_of_noOpenPair (vars : List (String × String)) :
    ∀ (l : List Char), noOpenPair l = true → compileChars vars l = l := by
  intro l
  induction l with
  | nil => intro _; rfl
  | cons c rest ih =>
    intro h
    unfold noOpenPair at h
    simp only [Bool.and_eq_true, Bool.not_eq_true'] at h
    rw [compileChars_cons_of_neg vars c rest h.1, ih h.2]

theorem compileChars_subst (vars : List (String × String)) :
    ∀ (pre key after : List Char), obrace ∉ pre → cbrace ∉ key →
      compileChars vars (pre ++ obrace :: obrace :: (key ++ cbrace :: cbrace :: after))
        = pre ++ (substVar vars (String.mk key)).data ++ compileChars vars after := by
  intro pre
  induction pre with
  | nil =>
    intro key after _ hk
    simpa using compileChars_placeholder vars key after hk
  | cons c pre ih =>
    intro key after hp hk
    have hc : c ≠ obrace := fun he => hp (he ▸ List.mem_cons_self c pre)
    rw [List.cons_append,
      compileChars_cons_of_neg vars c _ (by simp [hc]),
      ih key after (fun hm => hp (List.mem_cons_of_mem c hm)) hk,
      List.cons_append, List.cons_append]

/-- C2: for every registry state and name, `get(name)` with no label argument
returns exactly the same result as `get(name, label="production")` — omitting
the label defaults the lookup to the `production` label. -/
theorem get_default_label_is_production (r : Registry) (name : String) :
    r.get name none none = r.get name (some "production") none := rfl

/-- C10: `prompt_exists` treats every falsy label argument as the default —
with `label = some ""` it performs exactly the lookup it performs with
`label = none`, namely under the `production` label, rather than under an
empty-string label. -/
theorem prompt_exists_falsy_label_defaults (r : Registry) (name : String) :
    prompt_exists r name (some "") = prompt_exists r name none
  ∧ prompt_exists r name (some "") = (r.get name (some "production") none).isOk :=
  ⟨rfl, rfl⟩

/-- C4: version-pinned fetch is immune to label movement — after any sequence
of `updateLabels` calls whatsoever, `get(name, version=v)` returns exactly the
result (hence the original body) it returned before. -/
theorem pinned_fetch_stable (us : List (String × Nat × List String)) (r : Registry)
    (name : String) (lbl : Option String) (v : Nat) :
    (applyUpdates r us).get name lbl (some v) = r.get name lbl (some v) :=
  get_version_entries_eq r (applyUpdates r us) (applyUpdates_entries us r) name lbl v

/-- C9: `create` and `updateLabels` are atomic — whenever either operation
reports an error, the registry state it returns is exactly the input state;
there is no partial-success state. -/
theorem registry_ops_atomic :
    (∀ (r : Registry) (n pt : String) (b : Body) (ls : List String)
        (cfg : List (String × String)),
        (r.create n pt b ls cfg).2.isOk = false → (r.create n pt b ls cfg).1 = r)
  ∧ (∀ (r : Registry) (n : String) (v : Nat) (ls : List String),
        (r.updatePrompt n v ls).2.isOk = false → (r.updatePrompt n v ls).1 = r) := by
  constructor
  · intro r n pt b ls cfg h
    cases hb : (pt == "text" || pt == "chat") with
    | true =>
      rw [(create_valid r n pt b ls cfg hb).1] at h
      exact Bool.noConfusion h
    | false =>
      rw [create_invalid r n pt b ls cfg hb]
  · intro r n v ls h
    cases hb : (r.findVersion n v).isSome with
    | true =>
      unfold Registry.updatePrompt at h
      rw [if_pos hb] at h
      exact Bool.noConfusion h
    | false =>
      unfold Registry.updatePrompt
      rw [if_neg (by simp [hb])]

/-- Witness for C9: a `create` with an invalid type and an `updateLabels` on a
missing version both fail and leave the empty registry unchanged. -/
theorem registry_ops_atomic_witness :
    ((Registry.empty.create "t" "bogus" (Body.text "x") [] []).2.isOk = false
      ∧ (Registry.empty.create "t" "bogus" (Body.text "x") [] []).1 = Registry.empty)
  ∧ ((Registry.empty.updatePrompt "t" 1 ["production"]).2.isOk = false
      ∧ (Registry.empty.updatePrompt "t" 1 ["production"]).1 = Registry.empty) :=
  ⟨⟨by decide,
    registry_ops_atomic.1 Registry.empty "t" "bogus" (Body.text "x") [] [] (by decide)⟩,
   ⟨by decide, registry_ops_atomic.2 Registry.empty "t" 1 ["production"] (by decide)⟩⟩

/-- C6: chat compile returns exactly as many messages as the template body has,
with every role unchanged and in the same order, and with the substitution
applied exactly to each message's content field. -/
theorem compile_chat_preserves_shape (vars : List (String × String)) (msgs : List Message) :
    (compileChat vars msgs).length = msgs.length
  ∧ (compileChat vars msgs).map Message.role = msgs.map Message.role
  ∧ (compileChat vars msgs).map Message.content
      = msgs.map (fun m => compileText vars m.content) := by
  refine ⟨by simp [compileChat], ?_, ?_⟩ <;>
    simp [compileChat, List.map_map, Function.comp]

theorem createSeq_versions (name : String) :
    ∀ (args : List CreateArgs) (r : Registry),
      (∀ a ∈ args, (a.ptype == "text" || a.ptype == "chat") = true) →
      (createSeq r name args).2
        = (List.range args.length).map (fun i => Except.ok (r.nextVersion name + i)) := by
  intro args
  induction args with
  | nil => intro r _; rfl
  | cons a args ih =>
    intro r h
    have ha := h a (List.mem_cons_self a args)
    have hrest := ih (r.create name a.ptype a.body a.labels a.config).1
      (fun x hx => h x (List.mem_cons_of_mem a hx))
    show ((r.create name a.ptype a.body a.labels a.config).2
        :: (createSeq (r.create name a.ptype a.body a.labels a.config).1 name args).2)
      = _
    rw [(create_valid r name a.ptype a.body a.labels a.config ha).1, hrest,
      nextVersion_create r name a.ptype a.body a.labels a.config ha,
      List.length_cons, List.range_succ_eq_map, List.map_cons, List.map_map]
    have hfun : ((fun i => Except.ok (r.nextVersion name + i) : Nat → Except RegError Nat)
        ∘ Nat.succ) = fun i => Except.ok (r.nextVersion name + 1 + i) := by
      funext i
      simp only [Function.comp_apply]
      exact congrArg Except.ok (by omega)
    rw [hfun]
    simp

/-- C1: for every name, a sequence of N `create` calls with valid types — and
arbitrary label arguments — starting from a state with no versions of that
name returns exactly the versions 1..N in order; and no `create` call ever
changes the entry (hence the body) stored under any existing version. -/
theorem create_versions_sequential :
    (∀ (name : String) (args : List CreateArgs) (r : Registry),
        (∀ a ∈ args, (a.ptype == "text" || a.ptype == "chat") = true) →
        r.versionsOf name = [] →
        (createSeq r name args).2
          = (List.range args.length).map (fun i => Except.ok (i + 1)))
  ∧ (∀ (r : Registry) (n nm pt : String) (v : Nat) (e : Entry) (b : Body)
        (ls : List String) (cfg : List (String × String)),
        r.findVersion n v = some e →
        (r.create nm pt b ls cfg).1.findVersion n v = some e) := by
  constructor
  · intro name args r hvalid hempty
    have h1 : r.nextVersion name = 1 := by
      unfold Registry.nextVersion
      rw [hempty]
      rfl
    rw [createSeq_versions name args r hvalid, h1]
    apply List.map_congr_left
    intro i _
    exact congrArg Except.ok (by omega)
  · intro r n nm pt v e b ls cfg h
    cases hb : (pt == "text" || pt == "chat") with
    | false =>
      rw [create_invalid r nm pt b ls cfg hb]
      exact h
    | true =>
      have h' := h
      unfold Registry.findVersion at h' ⊢
      rw [(create_valid r nm pt b ls cfg hb).2]
      rw [List.find?_cons_of_neg]
      · exact h'
      · intro hc
        simp only [Bool.and_eq_true, beq_iff_eq] at hc
        obtain ⟨hc1, hc2⟩ := hc
        subst hc1
        have hlt := findVersion_lt_nextVersion r nm v e (hc2 ▸ h)
        omega

/-- Witness for C1: two creates on a fresh name yield versions 1 and 2, and a
create under a different name leaves version 1's entry intact. -/
theorem create_versions_sequential_witness :
    ((createSeq Registry.empty "t"
        [⟨"text", Body.text "a", ["production"], []⟩,
         ⟨"chat", Body.chat [⟨"user", "hi"⟩], ["staging"], []⟩]).2
      = (List.range 2).map (fun i => Except.ok (i + 1)))
  ∧ (((Registry.empty.create "t" "text" (Body.text "a") [] []).1.create "u" "chat"
        (Body.chat []) ["production"] []).1.findVersion "t" 1
      = some ⟨"t", 1, "text", Body.text "a", []⟩) :=
  ⟨create_versions_sequential.1 "t"
      [⟨"text", Body.text "a", ["production"], []⟩,
       ⟨"chat", Body.chat [⟨"user", "hi"⟩], ["staging"], []⟩]
      Registry.empty (by decide) (by decide),
   create_versions_sequential.2 (Registry.empty.create "t" "text" (Body.text "a") [] []).1
      "t" "u" "chat" 1 ⟨"t", 1, "text", Body.text "a", []⟩ (Body.chat []) ["production"] []
      (by decide)⟩

/-- C5: text compile substitutes a `\x7b\x7bkey\x7d\x7d` placeholder with the
variable's value (`substVar` returns an absent key's placeholder untouched),
returns any body without placeholder openers unchanged, and in particular
compiles "Hi \x7b\x7bx\x7d\x7d" with x := Bob to "Hi Bob" and leaves it
untouched under the empty mapping. -/
theorem compile_text_substitutes :
    (∀ (vars : List (String × String)) (pre key post : String),
        obrace ∉ pre.data → cbrace ∉ key.data →
        compileText vars (pre ++ "\x7b\x7b" ++ key ++ "\x7d\x7d" ++ post)
          = pre ++ substVar vars key ++ compileText vars post)
  ∧ (∀ (vars : List (String × String)) (body : String),
        noOpenPair body.data = true → compileText vars body = body)
  ∧ compileText [("x", "Bob")] "Hi \x7b\x7bx\x7d\x7d" = "Hi Bob"
  ∧ compileText [] "Hi \x7b\x7bx\x7d\x7d" = "Hi \x7b\x7bx\x7d\x7d" := by
  refine ⟨?_, ?_, by decide, by decide⟩
  · intro vars pre key post hp hk
    apply string_ext
    have hdata : (pre ++ "\x7b\x7b" ++ key ++ "\x7d\x7d" ++ post).data
        = pre.data ++ obrace :: obrace :: (key.data ++ cbrace :: cbrace :: post.data) := by
      simp only [String.data_append]
      simp only [List.append_assoc]
      rfl
    unfold compileText
    rw [hdata, compileChars_subst vars pre.data key.data post.data hp hk]
    simp only [String.data_append]
  · intro vars body h
    apply string_ext
    show compileChars vars body.data = body.data
    exact compileChars_id_of_noOpenPair vars body.data h

/-- Witness for C5: a concrete substitution through the general equation and a
concrete placeholder-free identity. -/
theorem compile_text_substitutes_witness :
    (obrace ∉ ("Hello " : String).data ∧ cbrace ∉ ("name" : String).data
      ∧ compileText [("name", "Ada")] ("Hello " ++ "\x7b\x7b" ++ "name" ++ "\x7d\x7d" ++ "!")
          = "Hello " ++ substVar [("name", "Ada")] "name" ++ compileText [("name", "Ada")] "!")
  ∧ (noOpenPair ("plain body" : String).data = true
      ∧ compileText [("x", "1")] "plain body" = "plain body") :=
  ⟨⟨by decide, by decide,
    compile_text_substitutes.1 [("name", "Ada")] "Hello " "name" "!" (by decide) (by decide)⟩,
   ⟨by decide, compile_text_substitutes.2.1 [("x", "1")] "plain body" (by decide)⟩⟩

/-- C3: after `updateLabels(name, v, ["production"])` succeeds, `get` by the
`production` label resolves to version `v` of `name`; the single pointer for
`(name, production)` is the one to `v` — so whichever version previously held
the label no longer does — and label uniqueness ("a label points to exactly
one version per name") is preserved. -/
theorem update_production_label (r : Registry) (name : String) (v : Nat)
    (h : (r.findVersion name v).isSome = true) :
    (∃ e, (r.updatePrompt name v ["production"]).1.get name (some "production") none
          = Except.ok e ∧ e.name = name ∧ e.version = v)
  ∧ filterPair (r.updatePrompt name v ["production"]).1 name "production"
      = [⟨name, "production", v⟩]
  ∧ (r.labelsUnique → (r.updatePrompt name v ["production"]).1.labelsUnique) := by
  have hupd : (r.updatePrompt name v ["production"]).1 = r.setLabel name "production" v := by
    unfold Registry.updatePrompt
    rw [if_pos h]
    rfl
  obtain ⟨e, he⟩ := Option.isSome_iff_exists.mp h
  refine ⟨⟨e, ?_, (findVersion_eq r name v e he).1, (findVersion_eq r name v e he).2.1⟩,
    ?_, ?_⟩
  · rw [hupd]
    show (match (r.setLabel name "production" v).labelVersion name "production" with
      | some v' =>
        match (r.setLabel name "production" v).findVersion name v' with
        | some e' => Except.ok e'
        | none => Except.error RegError.notFoundError
      | none => Except.error RegError.notFoundError) = Except.ok e
    rw [labelVersion_setLabel_self]
    show (match (r.setLabel name "production" v).findVersion name v with
      | some e' => Except.ok e'
      | none => Except.error RegError.notFoundError) = Except.ok e
    rw [findVersion_entries_eq r (r.setLabel name "production" v) rfl name v, he]
  · rw [hupd]
    exact filterPair_setLabel_self r name "production" v
  · intro hu
    unfold Registry.labelsUnique at hu ⊢
    intro nm lb
    rw [hupd]
    by_cases hpair : nm = name ∧ lb = "production"
    · obtain ⟨h1, h2⟩ := hpair
      subst h1
      subst h2
      rw [filterPair_setLabel_self]
      simp
    · rw [filterPair_setLabel_other r name "production" nm lb v hpair]
      exact hu nm lb

/-- Witness for C3: in a registry holding version 1 of "t" under `production`,
re-pointing `production` at version 1 succeeds and leaves exactly one
`production` pointer, to version 1. -/
theorem update_production_label_witness :
    (((Registry.empty.create "t" "text" (Body.text "a") ["production"] []).1.findVersion
        "t" 1).isSome = true)
  ∧ filterPair ((Registry.empty.create "t" "text" (Body.text "a")
        ["production"] []).1.updatePrompt "t" 1 ["production"]).1 "t" "production"
      = [⟨"t", "production", 1⟩] :=
  ⟨by decide,
   (update_production_label
      (Registry.empty.create "t" "text" (Body.text "a") ["production"] []).1
      "t" 1 (by decide)).2.1⟩

/-- C8: `updateLabels(name, version, newLabels)` fails with `NotFoundError`
(and changes nothing) whenever `(name, version)` does not exist; when it
succeeds, every label in `newLabels` ends up pointing at exactly the given
version, detached from any previous holder. -/
theorem update_labels_moves (r : Registry) (name : String) (v : Nat) (ls : List String) :
    (r.findVersion name v = none →
      (r.updatePrompt name v ls).2 = Except.error RegError.notFoundError
        ∧ (r.updatePrompt name v ls).1 = r)
  ∧ ((r.findVersion name v).isSome = true →
      (r.updatePrompt name v ls).2 = Except.ok ()
        ∧ ∀ lb ∈ ls, filterPair (r.updatePrompt name v ls).1 name lb
            = [⟨name, lb, v⟩]) := by
  constructor
  · intro h
    unfold Registry.updatePrompt
    rw [if_neg (by simp [h])]
    exact ⟨rfl, rfl⟩
  · intro h
    unfold Registry.updatePrompt
    rw [if_pos h]
    exact ⟨rfl, fun lb hlb => filterPair_foldl_mem name v ls r lb hlb⟩

/-- Witness for C8: updating labels of a missing version fails with
`NotFoundError`; after creating version 1 of "t", moving `staging` to it
succeeds. -/
theorem update_labels_moves_witness :
    (Registry.empty.findVersion "t" 1 = none
      ∧ (Registry.empty.updatePrompt "t" 1 ["production"]).2
          = Except.error RegError.notFoundError)
  ∧ (((Registry.empty.create "t" "text" (Body.text "a") [] []).1.findVersion "t" 1).isSome
        = true
      ∧ ((Registry.empty.create "t" "text" (Body.text "a") [] []).1.updatePrompt "t" 1
          ["staging"]).2 = Except.ok ()) :=
  ⟨⟨by decide,
    ((update_labels_moves Registry.empty "t" 1 ["production"]).1 (by decide)).1⟩,
   ⟨by decide,
    ((update_labels_moves (Registry.empty.create "t" "text" (Body.text "a") [] []).1
      "t" 1 ["staging"]).2 (by decide)).1⟩⟩

theorem get_label_fails_of_no_versions (r : Registry) (name : String) (lb : Option String)
    (h : r.versionsOf name = []) :
    r.get name lb none = Except.error RegError.notFoundError := by
  show (match r.labelVersion name (lb.getD "production") with
    | some v =>
      match r.findVersion name v with
      | some e => Except.ok e
      | none => Except.error RegError.notFoundError
    | none => Except.error RegError.notFoundError) = Except.error RegError.notFoundError
  cases hlv : r.labelVersion name (lb.getD "production") with
  | none => rfl
  | some v =>
    show (match r.findVersion name v with
      | some e => Except.ok e
      | none => Except.error RegError.notFoundError) = Except.error RegError.notFoundError
    rw [findVersion_eq_none_of_no_versions r name v h]

/-- C7 is false as stated: in a registry where "t" is published under the
`production` label, `prompt_exists "t" (some "")` returns `true` although
`get "t" (label := "") `(that is, an explicit empty-string label) fails — the
probe silently replaced the falsy label `""` by `"production"`. -/
theorem prompt_exists_iff_get_cex :
    prompt_exists ((Registry.empty.create "t" "text" (Body.text "hi") ["production"] []).1)
        "t" (some "") = true
  ∧ ((Registry.empty.create "t" "text" (Body.text "hi") ["production"] []).1.get "t"
        (some "") none).isOk = false := by decide

/-- C7 (amended): for a label argument that is `None` or a non-empty string,
`prompt_exists(name, label)` returns `true` exactly when `get(name, label)`
succeeds (and `prompt_exists`, a total Boolean function, never throws); for a
name with no stored versions, `get` fails with `NotFoundError` under every
label argument while `prompt_exists` returns `false`. -/
theorem prompt_exists_iff_get :
    (∀ (r : Registry) (name : String),
        prompt_exists r name none = (r.get name none none).isOk)
  ∧ (∀ (r : Registry) (name lb : String), lb ≠ "" →
        prompt_exists r name (some lb) = (r.get name (some lb) none).isOk)
  ∧ (∀ (r : Registry) (name : String) (lb : Option String),
        r.versionsOf name = [] →
        prompt_exists r name lb = false
          ∧ r.get name lb none = Except.error RegError.notFoundError) := by
  refine ⟨fun r name => rfl, ?_, ?_⟩
  · intro r name lb h
    show (r.get name (some (if lb == "" then "production" else lb)) none).isOk
      = (r.get name (some lb) none).isOk
    rw [if_neg (by simp [h])]
  · intro r name lb h
    refine ⟨?_, get_label_fails_of_no_versions r name lb h⟩
    show (r.get name (some (match lb with
      | none => "production"
      | some s => if s == "" then "production" else s)) none).isOk = false
    rw [get_label_fails_of_no_versions r name (some (match lb with
      | none => "production"
      | some s => if s == "" then "production" else s)) h]
    rfl

/-- Witness for C7 (amended): on the empty registry, the probe under a
non-empty label agrees with `get`, and for a missing name `get` fails with
`NotFoundError` while `prompt_exists` returns `false`. -/
theorem prompt_exists_iff_get_witness :
    (("staging" : String) ≠ ""
      ∧ prompt_exists Registry.empty "missing-name" (some "staging")
          = (Registry.empty.get "missing-name" (some "staging") none).isOk)
  ∧ (Registry.empty.versionsOf "missing-name" = []
      ∧ prompt_exists Registry.empty "missing-name" none = false
      ∧ Registry.empty.get "missing-name" none none
          = Except.error RegError.notFoundError) :=
  ⟨⟨by decide, prompt_exists_iff_get.2.1 Registry.empty "missing-name" "staging" (by decide)⟩,
   ⟨by decide,
    (prompt_exists_iff_get.2.2 Registry.empty "missing-name" none (by decide)).1,
    (prompt_exists_iff_get.2.2 Registry.empty "missing-name" none (by decide)).2⟩⟩

end Langfuse
